import Mathlib

/-!
Verification of the `min_notes` note-persistence backend
(`src/src-tauri/src/lib.rs`).

The Rust code exposes two Tauri commands, `save_note` and `load_notes`,
operating on a single `notes.json` file inside the app-data directory.
We model the filesystem state (`FsState`), the environment-supplied
effects (`Env`: path resolution, directory creation, read/write outcomes,
the freshly generated UUID and the captured timestamp), and both
commands as pure state-passing functions.

The serialization layer (`serde_json::to_string_pretty` /
`serde_json::from_str::<Vec<Note>>`) is third-party code not contained in
this repository; it is modelled from the spec (see the doc comments of
`serializeNotes`, `parseJson` and `decodeNotes`).
-/

/-- Model of the Rust struct `Note` (lib.rs lines 7-13): `id`, `title`,
`content` are strings, `timestamp` is an `i64` (modelled as `Int`). -/
structure Note where
  id : String
  title : String
  content : String
  timestamp : Int
deriving Repr, DecidableEq

/-- Modelled from the spec: JSON values as produced/consumed by
`serde_json`.  Numbers are restricted to integers, matching the file
format of §6 (the only number field is `timestamp`, an integer). -/
inductive Json where
  | null : Json
  | bool : Bool → Json
  | num : Int → Json
  | str : String → Json
  | arr : List Json → Json
  | obj : List (String × Json) → Json
deriving Repr

/-! ### Serialization (model of `serde_json::to_string_pretty` on `Vec<Note>`) -/

/-- Modelled from the spec: JSON string escaping on write.  The quote and
backslash and the common control characters get their short escapes;
remaining characters are emitted verbatim. -/
def escapeChar (c : Char) : List Char :=
  if c = '"' then ['\\', '"']
  else if c = '\\' then ['\\', '\\']
  else if c = '\n' then ['\\', 'n']
  else if c = '\t' then ['\\', 't']
  else if c = '\x0d' then ['\\', 'r']
  else if c = '\x08' then ['\\', 'b']
  else if c = '\x0c' then ['\\', 'f']
  else [c]

def escapeList (cs : List Char) : List Char :=
  cs.foldr (fun c acc => escapeChar c ++ acc) []

/-- A JSON string literal: quote, escaped contents, quote. -/
def printString (s : String) : List Char :=
  '"' :: (escapeList s.data ++ ['"'])

/-- The decimal digit character for a digit value `d < 10`. -/
def digitChar (d : Nat) : Char := Char.ofNat (48 + d)

/-- Little-endian decimal digits, driven by explicit fuel so that the
definition is structurally recursive (and hence kernel-evaluable). -/
def natDigitsAux : Nat → Nat → List Nat
  | 0, _ => []
  | fuel + 1, n => if n = 0 then [] else n % 10 :: natDigitsAux fuel (n / 10)

def natDigitsLE (n : Nat) : List Nat := natDigitsAux n n

/-- Big-endian decimal digits of a natural number (`[0]` for zero). -/
def natDigitsBE (n : Nat) : List Nat :=
  if n = 0 then [0] else (natDigitsLE n).reverse

def printNat (n : Nat) : List Char := (natDigitsBE n).map digitChar

/-- Decimal rendering of an integer, as `serde_json` prints an `i64`. -/
def printInt (i : Int) : List Char :=
  if i < 0 then '-' :: printNat i.natAbs else printNat i.natAbs

/-- Two spaces per indentation level (the `serde_json` pretty format). -/
def indentChars (n : Nat) : List Char := List.replicate (2 * n) ' '

/-- One `"key": value` line at the given indentation level. -/
def printField (ind : Nat) (key : String) (v : List Char) : List Char :=
  indentChars ind ++ printString key ++ (':' :: ' ' :: v)

/-- Modelled from the spec: the pretty-printed JSON object for one note,
with the four fields in declaration order, as `serde_json`'s pretty
formatter lays it out. -/
def printNotePretty (ind : Nat) (n : Note) : List Char :=
  '{' :: '\n' ::
    (printField (ind + 1) "id" (printString n.id) ++ (',' :: '\n' ::
    (printField (ind + 1) "title" (printString n.title) ++ (',' :: '\n' ::
    (printField (ind + 1) "content" (printString n.content) ++ (',' :: '\n' ::
    (printField (ind + 1) "timestamp" (printInt n.timestamp) ++ ('\n' ::
    (indentChars ind ++ ['}'])))))))))

/-- Remaining array elements, each preceded by a separator line. -/
def printNotesSep : List Note → List Char
  | [] => []
  | n :: ns => ',' :: '\n' :: (indentChars 1 ++ printNotePretty 1 n ++ printNotesSep ns)

/-- The full pretty-printed notes array as a character list. -/
def serializeNotesChars : List Note → List Char
  | [] => ['[', ']']
  | n :: ns =>
    '[' :: '\n' :: (indentChars 1 ++ printNotePretty 1 n ++ printNotesSep ns
      ++ ('\n' :: [']']))

/-- Modelled from the spec: `serde_json::to_string_pretty(&notes)` — the
human-readable structured text form that `save` writes (§4.1 step 5, §6).
It is total: serialization of a note list cannot fail (the spec calls
that failure "practically unreachable"). -/
def serializeNotes (ns : List Note) : String := ⟨serializeNotesChars ns⟩

/-! ### Parsing (model of `serde_json::from_str::<Vec<Note>>`) -/

def isWs (c : Char) : Bool :=
  decide (c = ' ') || decide (c = '\n') || decide (c = '\t') || decide (c = '\x0d')

def skipWs : List Char → List Char
  | [] => []
  | c :: cs => if isWs c then skipWs cs else c :: cs

def isDigitCh (c : Char) : Bool := decide ('0' ≤ c) && decide (c ≤ '9')

def hexVal (c : Char) : Option Nat :=
  if decide ('0' ≤ c) && decide (c ≤ '9') then some (c.toNat - 48)
  else if decide ('a' ≤ c) && decide (c ≤ 'f') then some (c.toNat - 87)
  else if decide ('A' ≤ c) && decide (c ≤ 'F') then some (c.toNat - 55)
  else none

def consFst (c : Char) : Option (List Char × List Char) → Option (List Char × List Char)
  | none => none
  | some (s, r) => some (c :: s, r)

/-- Parse the body of a JSON string literal (the opening quote already
consumed), returning the decoded characters and the remaining input. -/
def parseStringBody : List Char → Option (List Char × List Char)
  | [] => none
  | c :: cs =>
    if c = '"' then some ([], cs)
    else if c = '\\' then
      match cs with
      | [] => none
      | e :: cs2 =>
        if e = '"' then consFst '"' (parseStringBody cs2)
        else if e = '\\' then consFst '\\' (parseStringBody cs2)
        else if e = '/' then consFst '/' (parseStringBody cs2)
        else if e = 'n' then consFst '\n' (parseStringBody cs2)
        else if e = 't' then consFst '\t' (parseStringBody cs2)
        else if e = 'r' then consFst '\x0d' (parseStringBody cs2)
        else if e = 'b' then consFst '\x08' (parseStringBody cs2)
        else if e = 'f' then consFst '\x0c' (parseStringBody cs2)
        else if e = 'u' then
          match cs2 with
          | h1 :: h2 :: h3 :: h4 :: cs3 =>
            match hexVal h1, hexVal h2, hexVal h3, hexVal h4 with
            | some a, some b, some c2, some d =>
              consFst (Char.ofNat (((a * 16 + b) * 16 + c2) * 16 + d)) (parseStringBody cs3)
            | _, _, _, _ => none
          | _ => none
        else none
    else consFst c (parseStringBody cs)

/-- Take a maximal run of leading decimal digits (as digit values). -/
def takeDigits : List Char → List Nat × List Char
  | [] => ([], [])
  | c :: cs =>
    if isDigitCh c then
      let p := takeDigits cs
      ((c.toNat - 48) :: p.1, p.2)
    else ([], c :: cs)

def digitsToNat (ds : List Nat) : Nat := ds.foldl (fun a d => a * 10 + d) 0

/-- Parse a nonempty run of decimal digits into a natural number. -/
def parseDigits (cs : List Char) : Option (Nat × List Char) :=
  let p := takeDigits cs
  if p.1 = [] then none else some (digitsToNat p.1, p.2)

mutual

/-- Modelled from the spec: a recursive-descent JSON parser (the text
layer of `serde_json::from_str`).  It accepts both the pretty and the
compact form (§6: "parser must accept both pretty and compact forms"),
skipping whitespace freely.  The fuel argument bounds recursion; the
entry point `parseJson` supplies more fuel than any input can consume. -/
def parseValue : Nat → List Char → Except String (Json × List Char)
  | 0, _ => .error "recursion limit exceeded"
  | fuel + 1, cs =>
    match skipWs cs with
    | [] => .error "unexpected end of input"
    | c :: rest =>
      if c = '"' then
        match parseStringBody rest with
        | some (s, r) => .ok (.str ⟨s⟩, r)
        | none => .error "invalid string literal"
      else if c = '[' then
        match skipWs rest with
        | [] => .error "unexpected end of input"
        | d :: ds =>
          if d = ']' then .ok (.arr [], ds)
          else
            match parseItems fuel (d :: ds) with
            | .ok (js, r) => .ok (.arr js, r)
            | .error e => .error e
      else if c = '{' then
        match skipWs rest with
        | [] => .error "unexpected end of input"
        | d :: ds =>
          if d = '}' then .ok (.obj [], ds)
          else
            match parseFields fuel (d :: ds) with
            | .ok (kvs, r) => .ok (.obj kvs, r)
            | .error e => .error e
      else if c = 't' then
        match rest with
        | 'r' :: 'u' :: 'e' :: r => .ok (.bool true, r)
        | _ => .error "invalid literal"
      else if c = 'f' then
        match rest with
        | 'a' :: 'l' :: 's' :: 'e' :: r => .ok (.bool false, r)
        | _ => .error "invalid literal"
      else if c = 'n' then
        match rest with
        | 'u' :: 'l' :: 'l' :: r => .ok (.null, r)
        | _ => .error "invalid literal"
      else if c = '-' then
        match parseDigits rest with
        | some (m, r) => .ok (.num (-(m : Int)), r)
        | none => .error "invalid number"
      else
        match parseDigits (c :: rest) with
        | some (m, r) => .ok (.num (m : Int), r)
        | none => .error "unexpected character"

/-- Elements of a (nonempty) JSON array, up to and including `]`. -/
def parseItems : Nat → List Char → Except String (List Json × List Char)
  | 0, _ => .error "recursion limit exceeded"
  | fuel + 1, cs =>
    match parseValue fuel cs with
    | .error e => .error e
    | .ok (j, rest) =>
      match skipWs rest with
      | [] => .error "unexpected end of input"
      | d :: ds =>
        if d = ',' then
          match parseItems fuel ds with
          | .ok (js, r) => .ok (j :: js, r)
          | .error e => .error e
        else if d = ']' then .ok ([j], ds)
        else .error "expected comma or end of array"

/-- Members of a (nonempty) JSON object, up to and including `}`. -/
def parseFields : Nat → List Char → Except String (List (String × Json) × List Char)
  | 0, _ => .error "recursion limit exceeded"
  | fuel + 1, cs =>
    match skipWs cs with
    | [] => .error "unexpected end of input"
    | c :: rest =>
      if c = '"' then
        match parseStringBody rest with
        | none => .error "invalid string literal"
        | some (k, r) =>
          match skipWs r with
          | [] => .error "unexpected end of input"
          | d :: ds =>
            if d = ':' then
              match parseValue fuel ds with
              | .error e => .error e
              | .ok (v, r2) =>
                match skipWs r2 with
                | [] => .error "unexpected end of input"
                | d2 :: ds2 =>
                  if d2 = ',' then
                    match parseFields fuel ds2 with
                    | .ok (kvs, r3) => .ok ((⟨k⟩, v) :: kvs, r3)
                    | .error e => .error e
                  else if d2 = '}' then .ok ([(⟨k⟩, v)], ds2)
                  else .error "expected comma or end of object"
            else .error "expected colon"
      else .error "expected object key"

end

/-- Modelled from the spec: parse a whole JSON document (a single value
followed only by whitespace). -/
def parseJson (s : String) : Except String Json :=
  match parseValue (s.length + 1) s.data with
  | .error e => .error e
  | .ok (j, rest) =>
    match skipWs rest with
    | [] => .ok j
    | _ :: _ => .error "trailing characters"

/-! ### Deserialization of the parsed JSON into `Vec<Note>` -/

structure PartialNote where
  id? : Option String
  title? : Option String
  content? : Option String
  timestamp? : Option Int

/-- Modelled from the spec: `serde`'s struct field visitor for `Note` —
known fields must appear exactly once with the right type, unknown
fields are ignored. -/
def decodeField (p : PartialNote) (kv : String × Json) : Except String PartialNote :=
  if kv.1 = "id" then
    match p.id?, kv.2 with
    | some _, _ => .error "duplicate field id"
    | none, .str s => .ok { p with id? := some s }
    | none, _ => .error "invalid type for field id"
  else if kv.1 = "title" then
    match p.title?, kv.2 with
    | some _, _ => .error "duplicate field title"
    | none, .str s => .ok { p with title? := some s }
    | none, _ => .error "invalid type for field title"
  else if kv.1 = "content" then
    match p.content?, kv.2 with
    | some _, _ => .error "duplicate field content"
    | none, .str s => .ok { p with content? := some s }
    | none, _ => .error "invalid type for field content"
  else if kv.1 = "timestamp" then
    match p.timestamp?, kv.2 with
    | some _, _ => .error "duplicate field timestamp"
    | none, .num i => .ok { p with timestamp? := some i }
    | none, _ => .error "invalid type for field timestamp"
  else .ok p

def decodeFields : PartialNote → List (String × Json) → Except String PartialNote
  | p, [] => .ok p
  | p, kv :: rest =>
    match decodeField p kv with
    | .error e => .error e
    | .ok p2 => decodeFields p2 rest

/-- Decode one JSON value as a `Note`: it must be an object carrying all
four required fields. -/
def decodeNote (j : Json) : Except String Note :=
  match j with
  | .obj fields =>
    match decodeFields ⟨none, none, none, none⟩ fields with
    | .error e => .error e
    | .ok p =>
      match p.id?, p.title?, p.content?, p.timestamp? with
      | some i, some t, some c, some ts => .ok ⟨i, t, c, ts⟩
      | _, _, _, _ => .error "missing required field"
  | _ => .error "invalid type: expected note object"

def decodeNotesList : List Json → Except String (List Note)
  | [] => .ok []
  | j :: js =>
    match decodeNote j with
    | .error e => .error e
    | .ok n =>
      match decodeNotesList js with
      | .error e => .error e
      | .ok ns => .ok (n :: ns)

/-- Modelled from the spec: the shape layer of
`serde_json::from_str::<Vec<Note>>` — the document must be an array of
note records. -/
def decodeNotes (j : Json) : Except String (List Note) :=
  match j with
  | .arr js => decodeNotesList js
  | _ => .error "invalid type: expected a sequence"

/-- Modelled from the spec: `serde_json::from_str::<Vec<Note>>(&content)`
— parse the text, then decode the resulting JSON value. -/
def deserializeNotes (s : String) : Except String (List Note) :=
  match parseJson s with
  | .error e => .error e
  | .ok j => decodeNotes j

/-! ### The store: state, environment, and the two commands -/

/-- The filesystem state the two commands can observe and change: whether
the app-data directory exists and the content of `notes.json` (`none` =
the file does not exist). -/
structure FsState where
  dirExists : Bool
  file : Option String
deriving Repr, DecidableEq

/-- The environment a single command invocation runs in: the outcomes of
the four fallible host operations, the UUID `Uuid::new_v4().to_string()`
generates, and the timestamp `Utc::now().timestamp()` captures. -/
structure Env where
  appDataDir : Except String Unit
  createDir : Except String Unit
  readFile : Except String Unit
  writeFile : Except String Unit
  newUuid : String
  nowTimestamp : Int

/-- lib.rs lines 20-24: create the app-data directory if it does not
exist (`fs::create_dir_all`). -/
def ensureDir (env : Env) (st : FsState) : Except String FsState :=
  if st.dirExists then .ok st
  else
    match env.createDir with
    | .ok _ => .ok { st with dirExists := true }
    | .error e => .error ("Failed to create app data directory: " ++ e)

/-- lib.rs lines 29-35: load existing notes or start from an empty list;
a parse failure is swallowed (`serde_json::from_str(..).unwrap_or_default()`). -/
def readExistingNotes (env : Env) (st : FsState) : Except String (List Note) :=
  match st.file with
  | none => .ok []
  | some s =>
    match env.readFile with
    | .error e => .error ("Failed to read notes file: " ++ e)
    | .ok _ =>
      match deserializeNotes s with
      | .ok ns => .ok ns
      | .error _ => .ok []

/-- lib.rs lines 16-55, Tauri command `save_note`: resolve the app-data
directory, create it if missing, read the existing collection (lenient),
append a new note with the generated id and captured timestamp,
serialize, and overwrite the file.  Returns the result paired with the
resulting filesystem state.  (In the source the serialization step has a
`map_err`, but `to_string_pretty` on a `Vec<Note>` cannot fail, and the
model's serializer is total.) -/
def save_note (env : Env) (st : FsState) (title content : String) :
    Except String String × FsState :=
  match env.appDataDir with
  | .error e => (.error ("Failed to get app data directory: " ++ e), st)
  | .ok _ =>
    match ensureDir env st with
    | .error e => (.error e, st)
    | .ok st1 =>
      match readExistingNotes env st1 with
      | .error e => (.error e, st1)
      | .ok notes =>
        let note : Note :=
          { id := env.newUuid, title := title, content := content,
            timestamp := env.nowTimestamp }
        let notes2 := notes ++ [note]
        let notesJson := serializeNotes notes2
        match env.writeFile with
        | .error e => (.error ("Failed to write notes file: " ++ e), st1)
        | .ok _ => (.ok note.id, { st1 with file := some notesJson })

/-- lib.rs lines 57-75, Tauri command `load_notes`: resolve the app-data
directory (no creation), return `[]` if the file does not exist,
otherwise read and parse it strictly.  The filesystem state is never
modified. -/
def load_notes (env : Env) (st : FsState) :
    Except String (List Note) × FsState :=
  match env.appDataDir with
  | .error e => (.error ("Failed to get app data directory: " ++ e), st)
  | .ok _ =>
    match st.file with
    | none => (.ok [], st)
    | some s =>
      match env.readFile with
      | .error e => (.error ("Failed to read notes file: " ++ e), st)
      | .ok _ =>
        match deserializeNotes s with
        | .error e => (.error ("Failed to parse notes file: " ++ e), st)
        | .ok ns => (.ok ns, st)

/-- Run a sequence of `save_note` calls, each with its own environment
and title/content arguments, threading the filesystem state. -/
def runSaves (st : FsState) : List (Env × String × String) → FsState
  | [] => st
  | c :: cs => runSaves (save_note c.1 st c.2.1 c.2.2).2 cs

/-! ### Basic lemmas about the lexical helpers -/

/-- The JSON value corresponding to one serialized note. -/
def noteJson (n : Note) : Json :=
  .obj [("id", .str n.id), ("title", .str n.title),
        ("content", .str n.content), ("timestamp", .num n.timestamp)]

/-- The character suffix of a serialized note starting at the `timestamp`
key (used to structure the round-trip proof). -/
def tsFieldChars (ts : Int) (rest : List Char) : List Char :=
  '"' :: 't' :: 'i' :: 'm' :: 'e' :: 's' :: 't' :: 'a' :: 'm' :: 'p' :: '"' :: ':' :: ' ' ::
    (printInt ts ++ '\n' :: (indentChars 1 ++ '}' :: rest))

def contentFieldChars (n : Note) (rest : List Char) : List Char :=
  '"' :: 'c' :: 'o' :: 'n' :: 't' :: 'e' :: 'n' :: 't' :: '"' :: ':' :: ' ' ::
    (printString n.content ++ ',' :: '\n' :: (indentChars 2 ++ tsFieldChars n.timestamp rest))

def titleFieldChars (n : Note) (rest : List Char) : List Char :=
  '"' :: 't' :: 'i' :: 't' :: 'l' :: 'e' :: '"' :: ':' :: ' ' ::
    (printString n.title ++ ',' :: '\n' :: (indentChars 2 ++ contentFieldChars n rest))

def idFieldChars (n : Note) (rest : List Char) : List Char :=
  '"' :: 'i' :: 'd' :: '"' :: ':' :: ' ' ::
    (printString n.id ++ ',' :: '\n' :: (indentChars 2 ++ titleFieldChars n rest))

/-- The note a single `save_note` call appends, as determined by its
environment and arguments. -/
def newNoteOf (cl : Env × String × String) : Note :=
  ⟨cl.1.newUuid, cl.2.1, cl.2.2, cl.1.nowTimestamp⟩

def EnvOkAll (env : Env) : Prop :=
  env.appDataDir = .ok () ∧ env.createDir = .ok () ∧
    env.readFile = .ok () ∧ env.writeFile = .ok ()

/-- Concrete environments for witness instantiations. -/
def envOkA : Env := ⟨.ok (), .ok (), .ok (), .ok (), "id-1", 5⟩

def envOkB : Env := ⟨.ok (), .ok (), .ok (), .ok (), "id-2", 6⟩

def envNoPath : Env := ⟨.error "forced", .ok (), .ok (), .ok (), "id-3", 7⟩

set_option maxRecDepth 2000

theorem stringMkData (s : String) : (⟨s.data⟩ : String) = s := by
  cases s
  rfl

theorem skipWs_cons_nws (c : Char) (cs : List Char) (h : isWs c = false) :
    skipWs (c :: cs) = c :: cs := by
  simp [skipWs, h]

theorem skipWs_ws_append (ws cs : List Char) (h : ∀ c ∈ ws, isWs c = true) :
    skipWs (ws ++ cs) = skipWs cs := by
  induction ws with
  | nil => rfl
  | cons c ws ih =>
    have hc : isWs c = true := h c (List.mem_cons_self c ws)
    simp only [List.cons_append, skipWs, hc, if_true]
    exact ih (fun x hx => h x (List.mem_cons_of_mem c hx))

theorem skipWs_indent (n : Nat) (cs : List Char) :
    skipWs (indentChars n ++ cs) = skipWs cs := by
  refine skipWs_ws_append _ _ (fun c hc => ?_)
  have hc2 : c = ' ' := List.eq_of_mem_replicate hc
  subst hc2
  decide

theorem isWs_nl : isWs '\n' = true := by decide

theorem skipWs_nl (cs : List Char) : skipWs ('\n' :: cs) = skipWs cs := by
  simp [skipWs, isWs_nl]

/-! ### String-literal round trip -/

theorem parseStringBody_escape (cs rest : List Char) :
    parseStringBody (escapeList cs ++ '"' :: rest) = some (cs, rest) := by
  induction cs with
  | nil =>
    rw [show escapeList [] = [] from rfl, List.nil_append, parseStringBody.eq_def]
    simp
  | cons c cs ih =>
    rw [show escapeList (c :: cs) = escapeChar c ++ escapeList cs from rfl,
      List.append_assoc]
    by_cases h1 : c = '"'
    · subst h1
      rw [show escapeChar '"' = ['\\', '"'] from rfl]
      simp only [List.cons_append, List.nil_append]
      rw [parseStringBody.eq_def]
      simp [consFst, ih]
    · by_cases h2 : c = '\\'
      · subst h2
        rw [show escapeChar '\\' = ['\\', '\\'] from rfl]
        simp only [List.cons_append, List.nil_append]
        rw [parseStringBody.eq_def]
        simp [consFst, ih]
      · by_cases h3 : c = '\n'
        · subst h3
          rw [show escapeChar '\n' = ['\\', 'n'] from rfl]
          simp only [List.cons_append, List.nil_append]
          rw [parseStringBody.eq_def]
          simp [consFst, ih]
        · by_cases h4 : c = '\t'
          · subst h4
            rw [show escapeChar '\t' = ['\\', 't'] from rfl]
            simp only [List.cons_append, List.nil_append]
            rw [parseStringBody.eq_def]
            simp [consFst, ih]
          · by_cases h5 : c = '\x0d'
            · subst h5
              rw [show escapeChar '\x0d' = ['\\', 'r'] from rfl]
              simp only [List.cons_append, List.nil_append]
              rw [parseStringBody.eq_def]
              simp [consFst, ih]
            · by_cases h6 : c = '\x08'
              · subst h6
                rw [show escapeChar '\x08' = ['\\', 'b'] from rfl]
                simp only [List.cons_append, List.nil_append]
                rw [parseStringBody.eq_def]
                simp [consFst, ih]
              · by_cases h7 : c = '\x0c'
                · subst h7
                  rw [show escapeChar '\x0c' = ['\\', 'f'] from rfl]
                  simp only [List.cons_append, List.nil_append]
                  rw [parseStringBody.eq_def]
                  simp [consFst, ih]
                · have he : escapeChar c = [c] := by
                    simp [escapeChar, h1, h2, h3, h4, h5, h6, h7]
                  rw [he]
                  simp only [List.cons_append, List.nil_append]
                  rw [parseStringBody.eq_def]
                  simp [h1, h2, consFst, ih]

/-! ### Decimal-digit round trip -/

theorem natDigitsAux_eq_digits (fuel : Nat) :
    ∀ n, n ≤ fuel → natDigitsAux fuel n = Nat.digits 10 n := by
  induction fuel with
  | zero =>
    intro n h
    have hn : n = 0 := by omega
    subst hn
    simp [natDigitsAux]
  | succ fuel ih =>
    intro n h
    by_cases hn : n = 0
    · subst hn
      simp [natDigitsAux]
    · have hdiv : n / 10 < n := Nat.div_lt_self (Nat.pos_of_ne_zero hn) (by norm_num)
      simp only [natDigitsAux, hn, if_false]
      rw [ih (n / 10) (by omega)]
      exact (Nat.digits_def' (by norm_num) (Nat.pos_of_ne_zero hn)).symm

theorem natDigitsLE_eq (n : Nat) : natDigitsLE n = Nat.digits 10 n :=
  natDigitsAux_eq_digits n n le_rfl

theorem digitChar_facts (d : Nat) (h : d < 10) :
    ('0' ≤ digitChar d ∧ digitChar d ≤ '9') ∧ (digitChar d).toNat = 48 + d := by
  interval_cases d <;> decide

theorem digitChar_isDigit (d : Nat) (h : d < 10) : isDigitCh (digitChar d) = true := by
  interval_cases d <;> decide

theorem takeDigits_map (ds : List Nat) (h : ∀ d ∈ ds, d < 10) (rest : List Char)
    (hrest : isDigitCh (rest.headD '{') = false) :
    takeDigits (ds.map digitChar ++ rest) = (ds, rest) := by
  induction ds with
  | nil =>
    cases rest with
    | nil => rfl
    | cons c cs =>
      have hc : isDigitCh c = false := hrest
      simp [takeDigits, hc]
  | cons d ds ih =>
    have hd : d < 10 := h d (List.mem_cons_self d ds)
    have hd2 := digitChar_facts d hd
    simp only [List.map_cons, List.cons_append]
    simp [takeDigits, digitChar_isDigit d hd, hd2.2,
      ih (fun x hx => h x (List.mem_cons_of_mem d hx))]

theorem foldl_mul_add (ds : List Nat) (a : Nat) :
    ds.foldl (fun x d => x * 10 + d) a = a * 10 ^ ds.length + Nat.ofDigits 10 ds.reverse := by
  induction ds generalizing a with
  | nil => simp [Nat.ofDigits]
  | cons d ds ih =>
    simp only [List.foldl_cons, List.reverse_cons, List.length_cons]
    rw [ih (a * 10 + d), Nat.ofDigits_append]
    simp only [Nat.ofDigits_singleton, List.length_reverse, pow_succ]
    ring

theorem digitsToNat_BE (n : Nat) : digitsToNat (natDigitsBE n) = n := by
  by_cases h : n = 0
  · subst h
    rfl
  · rw [natDigitsBE, if_neg h, natDigitsLE_eq, digitsToNat, foldl_mul_add]
    simp [Nat.ofDigits_digits]

theorem natDigitsBE_lt (n : Nat) : ∀ d ∈ natDigitsBE n, d < 10 := by
  intro d hd
  by_cases h : n = 0
  · subst h
    simp [natDigitsBE] at hd
    omega
  · rw [natDigitsBE, if_neg h, natDigitsLE_eq, List.mem_reverse] at hd
    exact Nat.digits_lt_base (by norm_num) hd

theorem natDigitsBE_ne_nil (n : Nat) : natDigitsBE n ≠ [] := by
  by_cases h : n = 0
  · subst h
    simp [natDigitsBE]
  · rw [natDigitsBE, if_neg h, natDigitsLE_eq]
    simp [Nat.digits_ne_nil_iff_ne_zero, h]

theorem parseDigits_print (n : Nat) (rest : List Char)
    (hrest : isDigitCh (rest.headD '{') = false) :
    parseDigits (printNat n ++ rest) = some (n, rest) := by
  simp only [parseDigits, printNat]
  rw [takeDigits_map (natDigitsBE n) (natDigitsBE_lt n) rest hrest]
  simp [natDigitsBE_ne_nil n, digitsToNat_BE]

/-! ### Parsing printed scalar values -/

theorem digit_head_facts (c : Char) (h0 : '0' ≤ c) (h9 : c ≤ '9') :
    isWs c = false ∧ c ≠ '"' ∧ c ≠ '[' ∧ c ≠ '{' ∧ c ≠ 't' ∧ c ≠ 'f' ∧ c ≠ 'n' ∧ c ≠ '-' := by
  have hne : ∀ x : Char, (x < '0' ∨ '9' < x) → c ≠ x := by
    intro x hx he
    subst he
    rcases hx with hx | hx
    · exact absurd h0 (not_le.mpr hx)
    · exact absurd h9 (not_le.mpr hx)
  have hsp := hne ' ' (Or.inl (by decide))
  have hnl := hne '\n' (Or.inl (by decide))
  have htb := hne '\t' (Or.inl (by decide))
  have hcr := hne '\x0d' (Or.inl (by decide))
  refine ⟨by simp [isWs, hsp, hnl, htb, hcr], hne '"' (Or.inl (by decide)),
    hne '[' (Or.inr (by decide)), hne '{' (Or.inr (by decide)),
    hne 't' (Or.inr (by decide)), hne 'f' (Or.inr (by decide)),
    hne 'n' (Or.inr (by decide)), hne '-' (Or.inl (by decide))⟩

theorem parseValue_skip_congr (f : Nat) (cs cs2 : List Char)
    (h : skipWs cs = skipWs cs2) :
    parseValue (f + 1) cs = parseValue (f + 1) cs2 := by
  simp only [parseValue.eq_def]
  rw [h]

theorem parseValue_printString (f : Nat) (s : String) (rest : List Char) :
    parseValue (f + 1) (printString s ++ rest) = .ok (.str s, rest) := by
  have h1 : printString s ++ rest = '"' :: (escapeList s.data ++ ('"' :: rest)) := by
    simp [printString]
  rw [h1, parseValue.eq_def]
  simp [skipWs, isWs, parseStringBody_escape, stringMkData]

theorem parseValue_minus (f : Nat) (tail : List Char) :
    parseValue (f + 1) ('-' :: tail) =
      (match parseDigits tail with
       | some (m, r) => .ok (.num (-(m : Int)), r)
       | none => .error "invalid number") := by
  simp only [parseValue.eq_def]
  rw [skipWs_cons_nws _ _ (by decide)]
  simp

theorem parseValue_default (f : Nat) (c : Char) (tail : List Char)
    (hws : isWs c = false) (hq : c ≠ '"') (hlb : c ≠ '[') (hob : c ≠ '{')
    (ht : c ≠ 't') (hf2 : c ≠ 'f') (hn2 : c ≠ 'n') (hm : c ≠ '-') :
    parseValue (f + 1) (c :: tail) =
      (match parseDigits (c :: tail) with
       | some (m, r) => .ok (.num (m : Int), r)
       | none => .error "unexpected character") := by
  simp only [parseValue.eq_def]
  rw [skipWs_cons_nws _ _ hws]
  simp [hq, hlb, hob, ht, hf2, hn2, hm]

theorem parseValue_printInt (f : Nat) (i : Int) (rest : List Char)
    (hrest : isDigitCh (rest.headD '{') = false) :
    parseValue (f + 1) (printInt i ++ rest) = .ok (.num i, rest) := by
  by_cases hi : i < 0
  · rw [show printInt i = '-' :: printNat i.natAbs from by simp [printInt, hi],
      List.cons_append, parseValue_minus, parseDigits_print _ _ hrest]
    simp [abs_of_neg hi]
  · rw [show printInt i = printNat i.natAbs from by simp [printInt, hi]]
    obtain ⟨d, ds, hds⟩ : ∃ d ds, natDigitsBE i.natAbs = d :: ds := by
      cases hn : natDigitsBE i.natAbs with
      | nil => exact absurd hn (natDigitsBE_ne_nil _)
      | cons d ds => exact ⟨d, ds, rfl⟩
    have hd : d < 10 := natDigitsBE_lt _ d (by rw [hds]; exact List.mem_cons_self _ _)
    have hb := (digitChar_facts d hd).1
    obtain ⟨hws, hq, hlb, hob, ht, hf2, hn2, hm⟩ :=
      digit_head_facts (digitChar d) hb.1 hb.2
    have hp : printNat i.natAbs ++ rest = digitChar d :: (ds.map digitChar ++ rest) := by
      simp [printNat, hds]
    rw [hp, parseValue_default f _ _ hws hq hlb hob ht hf2 hn2 hm,
      show digitChar d :: (List.map digitChar ds ++ rest) = printNat i.natAbs ++ rest
        from hp.symm,
      parseDigits_print _ _ hrest]
    simp [show ((i.natAbs : Int)) = i from by omega]

/-! ### Parsing a printed note object -/

theorem psb_id (rest : List Char) :
    parseStringBody ('i' :: 'd' :: '"' :: rest) = some (['i', 'd'], rest) := by
  have h := parseStringBody_escape ['i', 'd'] rest
  rw [show (escapeList ['i', 'd'] ++ '"' :: rest : List Char)
    = 'i' :: 'd' :: '"' :: rest from rfl] at h
  exact h

theorem psb_title (rest : List Char) :
    parseStringBody ('t' :: 'i' :: 't' :: 'l' :: 'e' :: '"' :: rest)
      = some (['t', 'i', 't', 'l', 'e'], rest) := by
  have h := parseStringBody_escape ['t', 'i', 't', 'l', 'e'] rest
  rw [show (escapeList ['t', 'i', 't', 'l', 'e'] ++ '"' :: rest : List Char)
    = 't' :: 'i' :: 't' :: 'l' :: 'e' :: '"' :: rest from rfl] at h
  exact h

theorem psb_content (rest : List Char) :
    parseStringBody ('c' :: 'o' :: 'n' :: 't' :: 'e' :: 'n' :: 't' :: '"' :: rest)
      = some (['c', 'o', 'n', 't', 'e', 'n', 't'], rest) := by
  have h := parseStringBody_escape ['c', 'o', 'n', 't', 'e', 'n', 't'] rest
  rw [show (escapeList ['c', 'o', 'n', 't', 'e', 'n', 't'] ++ '"' :: rest : List Char)
    = 'c' :: 'o' :: 'n' :: 't' :: 'e' :: 'n' :: 't' :: '"' :: rest from rfl] at h
  exact h

theorem psb_timestamp (rest : List Char) :
    parseStringBody
      ('t' :: 'i' :: 'm' :: 'e' :: 's' :: 't' :: 'a' :: 'm' :: 'p' :: '"' :: rest)
      = some (['t', 'i', 'm', 'e', 's', 't', 'a', 'm', 'p'], rest) := by
  have h := parseStringBody_escape ['t', 'i', 'm', 'e', 's', 't', 'a', 'm', 'p'] rest
  rw [show (escapeList ['t', 'i', 'm', 'e', 's', 't', 'a', 'm', 'p'] ++ '"' :: rest : List Char)
    = 't' :: 'i' :: 'm' :: 'e' :: 's' :: 't' :: 'a' :: 'm' :: 'p' :: '"' :: rest from rfl] at h
  exact h

theorem parseValue_sp_printString (f : Nat) (s : String) (rest : List Char) :
    parseValue (f + 1) (' ' :: (printString s ++ rest)) = .ok (.str s, rest) := by
  have h : skipWs (' ' :: (printString s ++ rest)) = skipWs (printString s ++ rest) := by
    simp [skipWs, isWs]
  rw [parseValue_skip_congr f _ _ h, parseValue_printString]

theorem parseValue_sp_printInt (f : Nat) (i : Int) (rest : List Char)
    (hrest : isDigitCh (rest.headD '{') = false) :
    parseValue (f + 1) (' ' :: (printInt i ++ rest)) = .ok (.num i, rest) := by
  have h : skipWs (' ' :: (printInt i ++ rest)) = skipWs (printInt i ++ rest) := by
    simp [skipWs, isWs]
  rw [parseValue_skip_congr f _ _ h, parseValue_printInt _ _ _ hrest]

theorem printNotePretty_eq (n : Note) (rest : List Char) :
    printNotePretty 1 n ++ rest = '{' :: '\n' :: (indentChars 2 ++ idFieldChars n rest) := by
  simp only [printNotePretty, printField, idFieldChars, titleFieldChars, contentFieldChars,
    tsFieldChars, show printString "id" = ['"', 'i', 'd', '"'] from rfl,
    show printString "title" = ['"', 't', 'i', 't', 'l', 'e', '"'] from rfl,
    show printString "content" = ['"', 'c', 'o', 'n', 't', 'e', 'n', 't', '"'] from rfl,
    show printString "timestamp"
      = ['"', 't', 'i', 'm', 'e', 's', 't', 'a', 'm', 'p', '"'] from rfl,
    List.append_assoc, List.cons_append, List.nil_append]

theorem parseValue_succ (fuel : Nat) (cs : List Char) :
    parseValue (fuel + 1) cs =
      match skipWs cs with
      | [] => .error "unexpected end of input"
      | c :: rest =>
        if c = '"' then
          match parseStringBody rest with
          | some (s, r) => .ok (.str ⟨s⟩, r)
          | none => .error "invalid string literal"
        else if c = '[' then
          match skipWs rest with
          | [] => .error "unexpected end of input"
          | d :: ds =>
            if d = ']' then .ok (.arr [], ds)
            else
              match parseItems fuel (d :: ds) with
              | .ok (js, r) => .ok (.arr js, r)
              | .error e => .error e
        else if c = '{' then
          match skipWs rest with
          | [] => .error "unexpected end of input"
          | d :: ds =>
            if d = '}' then .ok (.obj [], ds)
            else
              match parseFields fuel (d :: ds) with
              | .ok (kvs, r) => .ok (.obj kvs, r)
              | .error e => .error e
        else if c = 't' then
          match rest with
          | 'r' :: 'u' :: 'e' :: r => .ok (.bool true, r)
          | _ => .error "invalid literal"
        else if c = 'f' then
          match rest with
          | 'a' :: 'l' :: 's' :: 'e' :: r => .ok (.bool false, r)
          | _ => .error "invalid literal"
        else if c = 'n' then
          match rest with
          | 'u' :: 'l' :: 'l' :: r => .ok (.null, r)
          | _ => .error "invalid literal"
        else if c = '-' then
          match parseDigits rest with
          | some (m, r) => .ok (.num (-(m : Int)), r)
          | none => .error "invalid number"
        else
          match parseDigits (c :: rest) with
          | some (m, r) => .ok (.num (m : Int), r)
          | none => .error "unexpected character" := by
  rw [parseValue.eq_def]

theorem parseItems_succ (fuel : Nat) (cs : List Char) :
    parseItems (fuel + 1) cs =
      match parseValue fuel cs with
      | .error e => .error e
      | .ok (j, rest) =>
        match skipWs rest with
        | [] => .error "unexpected end of input"
        | d :: ds =>
          if d = ',' then
            match parseItems fuel ds with
            | .ok (js, r) => .ok (j :: js, r)
            | .error e => .error e
          else if d = ']' then .ok ([j], ds)
          else .error "expected comma or end of array" := by
  rw [parseItems.eq_def]

theorem parseFields_succ (fuel : Nat) (cs : List Char) :
    parseFields (fuel + 1) cs =
      match skipWs cs with
      | [] => .error "unexpected end of input"
      | c :: rest =>
        if c = '"' then
          match parseStringBody rest with
          | none => .error "invalid string literal"
          | some (k, r) =>
            match skipWs r with
            | [] => .error "unexpected end of input"
            | d :: ds =>
              if d = ':' then
                match parseValue fuel ds with
                | .error e => .error e
                | .ok (v, r2) =>
                  match skipWs r2 with
                  | [] => .error "unexpected end of input"
                  | d2 :: ds2 =>
                    if d2 = ',' then
                      match parseFields fuel ds2 with
                      | .ok (kvs, r3) => .ok ((⟨k⟩, v) :: kvs, r3)
                      | .error e => .error e
                    else if d2 = '}' then .ok ([(⟨k⟩, v)], ds2)
                    else .error "expected comma or end of object"
              else .error "expected colon"
        else .error "expected object key" := by
  rw [parseFields.eq_def]

theorem parseValue_sp_str (g : Nat) (hg : 1 ≤ g) (s : String) (rest : List Char) :
    parseValue g (' ' :: (printString s ++ rest)) = .ok (.str s, rest) := by
  obtain ⟨f, rfl⟩ : ∃ f, g = f + 1 := ⟨g - 1, by omega⟩
  exact parseValue_sp_printString f s rest

theorem parseValue_sp_int (g : Nat) (hg : 1 ≤ g) (i : Int) (rest : List Char)
    (hrest : isDigitCh (rest.headD '{') = false) :
    parseValue g (' ' :: (printInt i ++ rest)) = .ok (.num i, rest) := by
  obtain ⟨f, rfl⟩ : ∃ f, g = f + 1 := ⟨g - 1, by omega⟩
  exact parseValue_sp_printInt f i rest hrest

theorem parseFields_skip (g : Nat) (hg : 1 ≤ g) (cs cs2 : List Char)
    (h : skipWs cs = skipWs cs2) : parseFields g cs = parseFields g cs2 := by
  obtain ⟨f, rfl⟩ : ∃ f, g = f + 1 := ⟨g - 1, by omega⟩
  rw [parseFields_succ f cs, parseFields_succ f cs2, h]

theorem parseFields_ts (g : Nat) (hg : 2 ≤ g) (ts : Int) (rest : List Char) :
    parseFields g (tsFieldChars ts rest) = .ok ([("timestamp", .num ts)], rest) := by
  obtain ⟨f, rfl⟩ : ∃ f, g = f + 2 := ⟨g - 2, by omega⟩
  rw [tsFieldChars]
  show parseFields (f + 1 + 1) _ = _
  rw [parseFields_succ]
  rw [skipWs_cons_nws _ _ (by decide)]
  simp
  rw [psb_timestamp]
  simp
  rw [skipWs_cons_nws _ _ (by decide)]
  simp
  rw [parseValue_sp_int _ (by omega) ts _ (by rfl)]
  simp
  rw [skipWs_nl, skipWs_indent, skipWs_cons_nws _ _ (by decide)]
  simp

theorem parseFields_content (g : Nat) (hg : 3 ≤ g) (n : Note) (rest : List Char) :
    parseFields g (contentFieldChars n rest)
      = .ok ([("content", .str n.content), ("timestamp", .num n.timestamp)], rest) := by
  obtain ⟨f, rfl⟩ : ∃ f, g = f + 3 := ⟨g - 3, by omega⟩
  rw [contentFieldChars]
  show parseFields (f + 2 + 1) _ = _
  rw [parseFields_succ]
  rw [skipWs_cons_nws _ _ (by decide)]
  simp
  rw [psb_content]
  simp
  rw [skipWs_cons_nws _ _ (by decide)]
  simp
  rw [parseValue_sp_str _ (by omega) n.content _]
  simp
  rw [skipWs_cons_nws _ _ (by decide)]
  simp
  rw [parseFields_skip _ (by omega) _ (tsFieldChars n.timestamp rest)
    (by rw [skipWs_nl, skipWs_indent])]
  rw [parseFields_ts _ (by omega)]

theorem parseFields_title (g : Nat) (hg : 4 ≤ g) (n : Note) (rest : List Char) :
    parseFields g (titleFieldChars n rest)
      = .ok ([("title", .str n.title), ("content", .str n.content),
              ("timestamp", .num n.timestamp)], rest) := by
  obtain ⟨f, rfl⟩ : ∃ f, g = f + 4 := ⟨g - 4, by omega⟩
  rw [titleFieldChars]
  show parseFields (f + 3 + 1) _ = _
  rw [parseFields_succ]
  rw [skipWs_cons_nws _ _ (by decide)]
  simp
  rw [psb_title]
  simp
  rw [skipWs_cons_nws _ _ (by decide)]
  simp
  rw [parseValue_sp_str _ (by omega) n.title _]
  simp
  rw [skipWs_cons_nws _ _ (by decide)]
  simp
  rw [parseFields_skip _ (by omega) _ (contentFieldChars n rest)
    (by rw [skipWs_nl, skipWs_indent])]
  rw [parseFields_content _ (by omega)]

theorem parseFields_noteFs (g : Nat) (hg : 5 ≤ g) (n : Note) (rest : List Char) :
    parseFields g (idFieldChars n rest)
      = .ok ([("id", .str n.id), ("title", .str n.title), ("content", .str n.content),
              ("timestamp", .num n.timestamp)], rest) := by
  obtain ⟨f, rfl⟩ : ∃ f, g = f + 5 := ⟨g - 5, by omega⟩
  rw [idFieldChars]
  show parseFields (f + 4 + 1) _ = _
  rw [parseFields_succ]
  rw [skipWs_cons_nws _ _ (by decide)]
  simp
  rw [psb_id]
  simp
  rw [skipWs_cons_nws _ _ (by decide)]
  simp
  rw [parseValue_sp_str _ (by omega) n.id _]
  simp
  rw [skipWs_cons_nws _ _ (by decide)]
  simp
  rw [parseFields_skip _ (by omega) _ (titleFieldChars n rest)
    (by rw [skipWs_nl, skipWs_indent])]
  rw [parseFields_title _ (by omega)]

theorem parseValue_note (g : Nat) (hg : 6 ≤ g) (n : Note) (rest : List Char) :
    parseValue g (printNotePretty 1 n ++ rest) = .ok (noteJson n, rest) := by
  obtain ⟨f, rfl⟩ : ∃ f, g = f + 6 := ⟨g - 6, by omega⟩
  rw [printNotePretty_eq]
  show parseValue (f + 5 + 1) _ = _
  rw [parseValue_succ]
  rw [skipWs_cons_nws _ _ (by decide)]
  simp
  rw [skipWs_nl, skipWs_indent]
  have hexp : idFieldChars n rest
      = '"' :: ('i' :: 'd' :: '"' :: ':' :: ' ' ::
        (printString n.id ++ ',' :: '
' :: (indentChars 2 ++ titleFieldChars n rest))) := rfl
  rw [show skipWs (idFieldChars n rest) = idFieldChars n rest from by
    rw [hexp]; exact skipWs_cons_nws _ _ (by decide)]
  rw [hexp]
  simp
  rw [← hexp]
  rw [parseFields_noteFs _ (by omega)]
  rfl

theorem parseItems_skip (g : Nat) (hg : 2 ≤ g) (cs cs2 : List Char)
    (h : skipWs cs = skipWs cs2) : parseItems g cs = parseItems g cs2 := by
  obtain ⟨f, rfl⟩ : ∃ f, g = f + 2 := ⟨g - 2, by omega⟩
  show parseItems (f + 1 + 1) cs = parseItems (f + 1 + 1) cs2
  rw [parseItems_succ, parseItems_succ, parseValue_skip_congr f cs cs2 h]

theorem parseItems_notes (ns : List Note) : ∀ (g : Nat) (n : Note) (rest : List Char),
    ns.length + 7 ≤ g →
    parseItems g (printNotePretty 1 n ++ (printNotesSep ns ++ '\n' :: (']' :: rest)))
      = .ok ((n :: ns).map noteJson, rest) := by
  induction ns with
  | nil =>
    intro g n rest hg
    obtain ⟨f, rfl⟩ : ∃ f, g = f + 7 := ⟨g - 7, by omega⟩
    show parseItems (f + 6 + 1) _ = _
    rw [parseItems_succ]
    rw [parseValue_note _ (by omega)]
    simp only [printNotesSep, List.nil_append]
    rw [skipWs_nl, skipWs_cons_nws _ _ (by decide)]
    simp
  | cons m ms ih =>
    intro g n rest hg
    simp only [List.length_cons] at hg
    obtain ⟨f, rfl⟩ : ∃ f, g = f + 1 := ⟨g - 1, by omega⟩
    rw [parseItems_succ]
    rw [parseValue_note _ (by omega)]
    simp only [printNotesSep, List.cons_append, List.append_assoc]
    rw [skipWs_cons_nws _ _ (by decide)]
    simp
    rw [parseItems_skip _ (by omega) _
      (printNotePretty 1 m ++ (printNotesSep ms ++ '\n' :: (']' :: rest)))
      (by rw [skipWs_nl, skipWs_indent])]
    rw [ih _ m rest (by omega)]
    simp

theorem printNotePretty_len (n : Note) : 8 ≤ (printNotePretty 1 n).length := by
  simp [printNotePretty, printField, printString, indentChars]
  omega

theorem printNotesSep_len (ms : List Note) : ms.length ≤ (printNotesSep ms).length := by
  induction ms with
  | nil => simp [printNotesSep]
  | cons m ms ih =>
    simp [printNotesSep, indentChars]
    omega

theorem serializeChars_len (n : Note) (ms : List Note) :
    ms.length + 8 ≤ (serializeNotesChars (n :: ms)).length := by
  have h1 := printNotePretty_len n
  have h2 := printNotesSep_len ms
  simp [serializeNotesChars, indentChars]
  omega

theorem parseJson_serialize (ns : List Note) :
    parseJson (serializeNotes ns) = .ok (.arr (ns.map noteJson)) := by
  cases ns with
  | nil => rfl
  | cons n ms =>
    have hlen : ms.length + 8 ≤ (serializeNotesChars (n :: ms)).length :=
      serializeChars_len n ms
    have hb : (serializeNotes (n :: ms)).length = (serializeNotesChars (n :: ms)).length := rfl
    obtain ⟨L, hL⟩ : ∃ L, (serializeNotes (n :: ms)).length = L + 1 :=
      ⟨(serializeNotes (n :: ms)).length - 1, by omega⟩
    rw [parseJson, hL]
    rw [show (serializeNotes (n :: ms)).data
      = '[' :: '\n' :: (indentChars 1
          ++ (printNotePretty 1 n ++ (printNotesSep ms ++ '\n' :: (']' :: [])))) from by
      simp [serializeNotes, serializeNotesChars]]
    rw [parseValue_succ]
    rw [skipWs_cons_nws _ _ (by decide)]
    simp
    rw [skipWs_nl, skipWs_indent]
    have hmid : skipWs (printNotePretty 1 n ++ (printNotesSep ms ++ '\n' :: (']' :: [])))
        = printNotePretty 1 n ++ (printNotesSep ms ++ '\n' :: (']' :: [])) := by
      rw [printNotePretty_eq]
      exact skipWs_cons_nws _ _ (by decide)
    rw [hmid, printNotePretty_eq]
    simp
    rw [← printNotePretty_eq]
    rw [parseItems_notes ms _ n [] (by omega)]
    simp [skipWs]

theorem decodeNote_noteJson (n : Note) : decodeNote (noteJson n) = .ok n := rfl

theorem decodeNotesList_map (ns : List Note) :
    decodeNotesList (ns.map noteJson) = .ok ns := by
  induction ns with
  | nil => rfl
  | cons n ms ih => simp [decodeNotesList, decodeNote_noteJson, ih]

theorem deserialize_serialize (ns : List Note) :
    deserializeNotes (serializeNotes ns) = .ok ns := by
  rw [deserializeNotes, parseJson_serialize]
  simp [decodeNotes, decodeNotesList_map]

/-! ### Behavior of the two commands -/

theorem ensureDir_ok (env : Env) (st : FsState) (hcreate : env.createDir = .ok ()) :
    ensureDir env st = .ok ⟨true, st.file⟩ := by
  cases st with
  | mk d fl =>
    cases d with
    | true => simp [ensureDir]
    | false => simp [ensureDir, hcreate]

theorem save_note_eq (env : Env) (st : FsState) (t c : String) (ns : List Note)
    (hpath : env.appDataDir = .ok ()) (hcreate : env.createDir = .ok ())
    (hwrite : env.writeFile = .ok ())
    (hns : readExistingNotes env st = .ok ns) :
    save_note env st t c
      = (.ok env.newUuid,
         ⟨true, some (serializeNotes (ns ++ [⟨env.newUuid, t, c, env.nowTimestamp⟩]))⟩) := by
  have hns2 : readExistingNotes env ⟨true, st.file⟩ = .ok ns := hns
  unfold save_note
  rw [hpath, ensureDir_ok env st hcreate]
  simp [hns2, hwrite]

theorem readExistingNotes_total (env : Env) (st : FsState)
    (hread : env.readFile = .ok ()) :
    ∃ prev, readExistingNotes env st = .ok prev := by
  unfold readExistingNotes
  rcases hf : st.file with _ | s
  · exact ⟨[], rfl⟩
  · rw [hread]
    rcases hd : deserializeNotes s with e | ns
    · exact ⟨[], by simp [hd]⟩
    · exact ⟨ns, by simp [hd]⟩

theorem load_notes_state (env : Env) (st : FsState) : (load_notes env st).2 = st := by
  unfold load_notes
  rcases h1 : env.appDataDir with e | u <;> simp [h1]
  rcases h2 : st.file with _ | s <;> simp [h2]
  rcases h3 : env.readFile with e | u2 <;> simp [h3]
  rcases h4 : deserializeNotes s with e | ns <;> simp [h4]

theorem runSaves_inv (calls : List (Env × String × String)) :
    ∀ (ns : List Note) (st : FsState),
    (∀ cl ∈ calls, EnvOkAll cl.1) →
    (st.file = some (serializeNotes ns) ∨ (st.file = none ∧ ns = [])) →
    ((runSaves st calls).file = some (serializeNotes (ns ++ calls.map newNoteOf))
      ∨ ((runSaves st calls).file = none ∧ ns ++ calls.map newNoteOf = [])) := by
  induction calls with
  | nil =>
    intro ns st hok hst
    simpa [runSaves] using hst
  | cons cl cls ih =>
    intro ns st hok hst
    obtain ⟨hpath, hcreate, hread, hwrite⟩ := hok cl (List.mem_cons_self cl cls)
    have hprev : readExistingNotes cl.1 st = .ok ns := by
      rcases hst with ⟨hs⟩ | ⟨hs, rfl⟩
      · simp [readExistingNotes, hs, hread, deserialize_serialize]
      · simp [readExistingNotes, hs]
    have hsave := save_note_eq cl.1 st cl.2.1 cl.2.2 ns hpath hcreate hwrite hprev
    rw [runSaves, hsave]
    have := ih (ns ++ [newNoteOf cl])
      ⟨true, some (serializeNotes (ns ++ [newNoteOf cl]))⟩
      (fun x hx => hok x (List.mem_cons_of_mem cl hx)) (Or.inl rfl)
    simpa [newNoteOf, List.append_assoc] using this

theorem ensureDir_file (env : Env) (st st1 : FsState)
    (h : ensureDir env st = .ok st1) : st1.file = st.file := by
  unfold ensureDir at h
  by_cases hd : st.dirExists
  · simp [hd] at h
    rw [← h]
  · rcases hc : env.createDir with e | u
    · simp [hd, hc] at h
    · simp [hd, hc] at h
      rw [← h]

/-! ### The claims -/

/-- C1: for every prior well-formed note collection on disk, a successful
`save(title, content)` leaves the notes file containing the previous
collection's notes unchanged and in order, followed by exactly one new
entry whose title and content equal the arguments, whose id is the
freshly generated one and whose timestamp is the captured epoch seconds;
the returned id equals that new entry's id. -/
theorem save_appends_to_wellformed (env : Env) (d : Bool) (s : String)
    (ns : List Note) (t c : String)
    (hpath : env.appDataDir = .ok ()) (hcreate : env.createDir = .ok ())
    (hread : env.readFile = .ok ()) (hwrite : env.writeFile = .ok ())
    (hprev : deserializeNotes s = .ok ns) :
    (save_note env ⟨d, some s⟩ t c).1 = .ok env.newUuid ∧
    ∃ f2, (save_note env ⟨d, some s⟩ t c).2.file = some f2 ∧
      deserializeNotes f2 = .ok (ns ++ [⟨env.newUuid, t, c, env.nowTimestamp⟩]) := by
  have hr : readExistingNotes env ⟨d, some s⟩ = .ok ns := by
    simp [readExistingNotes, hread, hprev]
  rw [save_note_eq env _ t c ns hpath hcreate hwrite hr]
  exact ⟨rfl, _, rfl, deserialize_serialize _⟩

theorem save_appends_to_wellformed_witness :
    (save_note envOkA ⟨true, some "[]"⟩ "a" "b").1 = .ok envOkA.newUuid ∧
    ∃ f2, (save_note envOkA ⟨true, some "[]"⟩ "a" "b").2.file = some f2 ∧
      deserializeNotes f2 = .ok ([] ++ [⟨envOkA.newUuid, "a", "b", envOkA.nowTimestamp⟩]) :=
  save_appends_to_wellformed envOkA true "[]" [] "a" "b" rfl rfl rfl rfl (by rfl)

/-- C2: on a notes file whose content does not parse as a note collection,
`save` still succeeds and the resulting file contains exactly the one new
note, while `load` on the same content returns an error. -/
theorem save_lenient_load_strict (env : Env) (d : Bool) (s e0 t c : String)
    (hpath : env.appDataDir = .ok ()) (hcreate : env.createDir = .ok ())
    (hread : env.readFile = .ok ()) (hwrite : env.writeFile = .ok ())
    (hbad : deserializeNotes s = .error e0) :
    (save_note env ⟨d, some s⟩ t c).1 = .ok env.newUuid ∧
    (∃ f2, (save_note env ⟨d, some s⟩ t c).2.file = some f2 ∧
      deserializeNotes f2 = .ok [⟨env.newUuid, t, c, env.nowTimestamp⟩]) ∧
    (∃ e2, (load_notes env ⟨d, some s⟩).1 = .error e2) := by
  have hr : readExistingNotes env ⟨d, some s⟩ = .ok [] := by
    simp [readExistingNotes, hread, hbad]
  rw [save_note_eq env _ t c [] hpath hcreate hwrite hr]
  refine ⟨rfl, ⟨_, rfl, ?_⟩, ⟨"Failed to parse notes file: " ++ e0, ?_⟩⟩
  · simpa using deserialize_serialize [⟨env.newUuid, t, c, env.nowTimestamp⟩]
  · simp [load_notes, hpath, hread, hbad]

theorem save_lenient_load_strict_witness :
    (save_note envOkA ⟨true, some "garbage"⟩ "a" "b").1 = .ok envOkA.newUuid ∧
    (∃ f2, (save_note envOkA ⟨true, some "garbage"⟩ "a" "b").2.file = some f2 ∧
      deserializeNotes f2 = .ok [⟨envOkA.newUuid, "a", "b", envOkA.nowTimestamp⟩]) ∧
    (∃ e2, (load_notes envOkA ⟨true, some "garbage"⟩).1 = .error e2) :=
  save_lenient_load_strict envOkA true "garbage" "unexpected character" "a" "b"
    rfl rfl rfl rfl (by rfl)

/-- C3: when the notes file does not exist, `load` returns `Ok` with an
empty list, not an error. -/
theorem load_missing_file_empty (env : Env) (d : Bool)
    (hpath : env.appDataDir = .ok ()) :
    (load_notes env ⟨d, none⟩).1 = .ok [] := by
  simp [load_notes, hpath]

theorem load_missing_file_empty_witness :
    (load_notes envOkA ⟨true, none⟩).1 = .ok [] :=
  load_missing_file_empty envOkA true rfl

/-- C4: starting from no notes file, N sequential `save` calls followed by
`load` return exactly N entries in call order, each carrying a distinct
id (given that the generated ids are pairwise distinct). -/
theorem sequential_saves_then_load (calls : List (Env × String × String))
    (loadEnv : Env) (d0 : Bool)
    (hok : ∀ cl ∈ calls, EnvOkAll cl.1)
    (hlpath : loadEnv.appDataDir = .ok ()) (hlread : loadEnv.readFile = .ok ())
    (hids : (calls.map (fun cl => cl.1.newUuid)).Nodup) :
    (load_notes loadEnv (runSaves ⟨d0, none⟩ calls)).1 = .ok (calls.map newNoteOf) ∧
    (calls.map newNoteOf).length = calls.length ∧
    ((calls.map newNoteOf).map Note.id).Nodup := by
  have hinv := runSaves_inv calls [] ⟨d0, none⟩ hok (Or.inr ⟨rfl, rfl⟩)
  refine ⟨?_, by simp, ?_⟩
  · rcases hinv with h | ⟨h, h2⟩
    · simp only [List.nil_append] at h
      simp [load_notes, hlpath, h, hlread, deserialize_serialize]
    · simp only [List.nil_append] at h2
      rw [h2]
      simp [load_notes, hlpath, h]
  · rw [List.map_map]
    exact hids

theorem sequential_saves_then_load_witness :
    (load_notes envOkA
        (runSaves ⟨false, none⟩ [(envOkA, "a", "b"), (envOkB, "c", "d")])).1
      = .ok ([(envOkA, "a", "b"), (envOkB, "c", "d")].map newNoteOf) ∧
    ([(envOkA, "a", "b"), (envOkB, "c", "d")].map newNoteOf).length
      = [(envOkA, "a", "b"), (envOkB, "c", "d")].length ∧
    (([(envOkA, "a", "b"), (envOkB, "c", "d")].map newNoteOf).map Note.id).Nodup :=
  sequential_saves_then_load [(envOkA, "a", "b"), (envOkB, "c", "d")] envOkA false
    (by
      intro cl hcl
      rcases List.mem_cons.mp hcl with rfl | hcl2
      · exact ⟨rfl, rfl, rfl, rfl⟩
      · rcases List.mem_cons.mp hcl2 with rfl | hcl3
        · exact ⟨rfl, rfl, rfl, rfl⟩
        · exact absurd hcl3 (List.not_mem_nil _))
    rfl rfl (by decide)

/-- C5: round-trip — serializing any note collection as `save` does and
parsing it back as `load` does yields the same collection, same fields,
same order. -/
theorem serialize_parse_roundTrip (ns : List Note) :
    deserializeNotes (serializeNotes ns) = .ok ns :=
  deserialize_serialize ns

/-- C6: the id-uniqueness invariant is preserved by `save`: if the
on-disk collection has pairwise-distinct ids and the freshly generated id
does not collide with them, the stored collection after a successful save
still has pairwise-distinct ids. -/
theorem save_preserves_id_uniqueness (env : Env) (d : Bool) (s : String)
    (ns : List Note) (t c : String)
    (hpath : env.appDataDir = .ok ()) (hcreate : env.createDir = .ok ())
    (hread : env.readFile = .ok ()) (hwrite : env.writeFile = .ok ())
    (hprev : deserializeNotes s = .ok ns)
    (hnodup : (ns.map Note.id).Nodup)
    (hfresh : env.newUuid ∉ ns.map Note.id) :
    ∃ f2 ns2, (save_note env ⟨d, some s⟩ t c).2.file = some f2 ∧
      deserializeNotes f2 = .ok ns2 ∧ (ns2.map Note.id).Nodup := by
  have hr : readExistingNotes env ⟨d, some s⟩ = .ok ns := by
    simp [readExistingNotes, hread, hprev]
  rw [save_note_eq env _ t c ns hpath hcreate hwrite hr]
  refine ⟨_, ns ++ [⟨env.newUuid, t, c, env.nowTimestamp⟩], rfl,
    deserialize_serialize _, ?_⟩
  simp [List.nodup_append, hnodup, hfresh]

theorem save_preserves_id_uniqueness_witness :
    ∃ f2 ns2, (save_note envOkA ⟨true, some "[]"⟩ "a" "b").2.file = some f2 ∧
      deserializeNotes f2 = .ok ns2 ∧ (ns2.map Note.id).Nodup :=
  save_preserves_id_uniqueness envOkA true "[]" [] "a" "b" rfl rfl rfl rfl
    (by rfl) (by decide) (by decide)

/-- C7 counterexample: `load` on a state whose backing directory does not
exist succeeds with an empty list yet does not create the directory, so
"both save and load establish the backing directory's existence" is
false as stated. -/
theorem load_never_creates_dir_cx :
    (load_notes envOkA ⟨false, none⟩).1 = .ok [] ∧
    (load_notes envOkA ⟨false, none⟩).2.dirExists = false :=
  ⟨rfl, rfl⟩

/-- C7 (amended): `save` ensures the backing directory exists (creating
it when absent) before touching the notes file, but `load` never creates
the directory — it performs no filesystem mutation at all and only reads
the notes file when it exists. -/
theorem dir_init_amended (env : Env) (st : FsState) (t c : String)
    (hpath : env.appDataDir = .ok ()) (hcreate : env.createDir = .ok ()) :
    (save_note env st t c).2.dirExists = true ∧ (load_notes env st).2 = st := by
  constructor
  · unfold save_note
    rw [hpath, ensureDir_ok env st hcreate]
    rcases hre : readExistingNotes env ⟨true, st.file⟩ with e | ns
    · simp [hre]
    · rcases hw : env.writeFile with e | u <;> simp [hre, hw]
  · exact load_notes_state env st

theorem dir_init_amended_witness :
    (save_note envOkA ⟨false, none⟩ "a" "b").2.dirExists = true ∧
    (load_notes envOkA ⟨false, none⟩).2 = ⟨false, none⟩ :=
  dir_init_amended envOkA ⟨false, none⟩ "a" "b" rfl rfl

/-- C8: `save` applies no validation or trimming: for any title and
content — including both empty — it succeeds and the stored new note
carries exactly the given strings. -/
theorem save_accepts_empty_strings (env : Env) (st : FsState) (t c : String)
    (hpath : env.appDataDir = .ok ()) (hcreate : env.createDir = .ok ())
    (hread : env.readFile = .ok ()) (hwrite : env.writeFile = .ok ()) :
    (save_note env st t c).1 = .ok env.newUuid ∧
    ∃ f2 ns2, (save_note env st t c).2.file = some f2 ∧
      deserializeNotes f2 = .ok ns2 ∧
      ns2.getLast? = some ⟨env.newUuid, t, c, env.nowTimestamp⟩ := by
  obtain ⟨prev, hprev⟩ := readExistingNotes_total env st hread
  rw [save_note_eq env st t c prev hpath hcreate hwrite hprev]
  refine ⟨rfl, _, prev ++ [⟨env.newUuid, t, c, env.nowTimestamp⟩], rfl,
    deserialize_serialize _, ?_⟩
  simp

theorem save_accepts_empty_strings_witness :
    (save_note envOkA ⟨true, none⟩ "" "").1 = .ok envOkA.newUuid ∧
    ∃ f2 ns2, (save_note envOkA ⟨true, none⟩ "" "").2.file = some f2 ∧
      deserializeNotes f2 = .ok ns2 ∧
      ns2.getLast? = some ⟨envOkA.newUuid, "", "", envOkA.nowTimestamp⟩ :=
  save_accepts_empty_strings envOkA ⟨true, none⟩ "" "" rfl rfl rfl rfl

/-- C9: `save`'s parse-failure leniency covers every deserialization
failure: for content that is valid JSON but not a list of note records,
save treats the existing collection as empty and the resulting file
contains exactly the one new note. -/
theorem save_swallows_shape_errors (env : Env) (d : Bool) (s : String)
    (j : Json) (e0 t c : String)
    (hpath : env.appDataDir = .ok ()) (hcreate : env.createDir = .ok ())
    (hread : env.readFile = .ok ()) (hwrite : env.writeFile = .ok ())
    (hj : parseJson s = .ok j) (hshape : decodeNotes j = .error e0) :
    (save_note env ⟨d, some s⟩ t c).1 = .ok env.newUuid ∧
    ∃ f2, (save_note env ⟨d, some s⟩ t c).2.file = some f2 ∧
      deserializeNotes f2 = .ok [⟨env.newUuid, t, c, env.nowTimestamp⟩] := by
  have hbad : deserializeNotes s = .error e0 := by
    simp [deserializeNotes, hj, hshape]
  have hr : readExistingNotes env ⟨d, some s⟩ = .ok [] := by
    simp [readExistingNotes, hread, hbad]
  rw [save_note_eq env _ t c [] hpath hcreate hwrite hr]
  refine ⟨rfl, _, rfl, ?_⟩
  simpa using deserialize_serialize [⟨env.newUuid, t, c, env.nowTimestamp⟩]

theorem save_swallows_shape_errors_witness :
    (save_note envOkA ⟨true, some "{}"⟩ "a" "b").1 = .ok envOkA.newUuid ∧
    ∃ f2, (save_note envOkA ⟨true, some "{}"⟩ "a" "b").2.file = some f2 ∧
      deserializeNotes f2 = .ok [⟨envOkA.newUuid, "a", "b", envOkA.nowTimestamp⟩] :=
  save_swallows_shape_errors envOkA true "{}" (.obj [])
    "invalid type: expected a sequence" "a" "b" rfl rfl rfl rfl (by rfl) (by rfl)

/-- C10: if `save` fails at directory resolution, directory creation or
reading the existing file (serialization cannot fail in the model), the
notes file's content is exactly what it was before the call — only the
final write modifies the file. -/
theorem save_early_error_preserves_file (env : Env) (st : FsState) (t c : String)
    (h : (∃ e, env.appDataDir = .error e)
      ∨ (st.dirExists = false ∧ ∃ e, env.createDir = .error e)
      ∨ ((∃ s, st.file = some s) ∧ ∃ e, env.readFile = .error e)) :
    (∃ e2, (save_note env st t c).1 = .error e2) ∧
    (save_note env st t c).2.file = st.file := by
  rcases h with ⟨e, he⟩ | ⟨hd, e, he⟩ | ⟨⟨s, hs⟩, e, he⟩
  · exact ⟨⟨"Failed to get app data directory: " ++ e, by simp [save_note, he]⟩,
      by simp [save_note, he]⟩
  · rcases hp : env.appDataDir with e1 | u
    · exact ⟨⟨"Failed to get app data directory: " ++ e1, by simp [save_note, hp]⟩,
        by simp [save_note, hp]⟩
    · have hens : ensureDir env st
          = .error ("Failed to create app data directory: " ++ e) := by
        simp [ensureDir, hd, he]
      exact ⟨⟨"Failed to create app data directory: " ++ e,
        by simp [save_note, hp, hens]⟩, by simp [save_note, hp, hens]⟩
  · rcases hp : env.appDataDir with e1 | u
    · exact ⟨⟨"Failed to get app data directory: " ++ e1, by simp [save_note, hp]⟩,
        by simp [save_note, hp]⟩
    · rcases hen : ensureDir env st with e1 | st1
      · exact ⟨⟨e1, by simp [save_note, hp, hen]⟩, by simp [save_note, hp, hen]⟩
      · have hst1 : st1.file = st.file := ensureDir_file env st st1 hen
        have hre : readExistingNotes env st1
            = .error ("Failed to read notes file: " ++ e) := by
          unfold readExistingNotes
          rw [hst1, hs, he]
        exact ⟨⟨"Failed to read notes file: " ++ e, by simp [save_note, hp, hen, hre]⟩,
          by simp [save_note, hp, hen, hre, hst1]⟩

theorem save_early_error_preserves_file_witness :
    (∃ e2, (save_note envNoPath ⟨true, some "[]"⟩ "a" "b").1 = .error e2) ∧
    (save_note envNoPath ⟨true, some "[]"⟩ "a" "b").2.file
      = (⟨true, some "[]"⟩ : FsState).file :=
  save_early_error_preserves_file envNoPath ⟨true, some "[]"⟩ "a" "b"
    (Or.inl ⟨"forced", rfl⟩)
